import Mathlib

/-!
Verification of `src/output/markdown_ast.js` from transitive-bullshit/documentation.

We shallowly embed the comment data model, the document-node (remark/mdast)
output model, and the recursive tree generator `generate` together with its
section builders, faithfully following the JavaScript source.  JS truthiness
(`false`/`undefined` entries removed by `.filter(Boolean)`, empty strings
counted as absent) is made explicit in the embedding.
-/

namespace MarkdownAst

/-- Output document node, mirroring the unist/mdast nodes built with
`u(...)` in the source.  `link` carries an optional `title` (present only
for the `githubLink` builder); `emphasisValue` is the node produced by
`u('emphasis', caption)` when the caption is a plain string. -/
inductive Node where
  | root (children : List Node)
  | heading (depth : Nat) (children : List Node)
  | paragraph (children : List Node)
  | list (ordered : Bool) (children : List Node)
  | listItem (children : List Node)
  | text (value : String)
  | strong (children : List Node)
  | emphasisValue (value : String)
  | inlineCode (value : String)
  | code (lang : String) (value : String)
  | link (url : String) (title : Option String) (children : List Node)
  | html (value : String)
  | thematicBreak


/-- The `.children` accessor used by the source on description and
"see" nodes (leaf nodes have no children). -/
def Node.children : Node → List Node
  | .root cs => cs
  | .heading _ cs => cs
  | .paragraph cs => cs
  | .list _ cs => cs
  | .listItem cs => cs
  | .strong cs => cs
  | .link _ _ cs => cs
  | _ => []

/-- `x ? x.children : []` — the children of a possibly-absent rich-text
node. -/
def descriptionChildren : Option Node → List Node
  | some d => d.children
  | none => []

/-- The possibly-absent rich-text node itself as a node sequence (used by
the note branch, which concatenates the whole description node). -/
def descriptionNodes : Option Node → List Node
  | some d => [d]
  | none => []

mutual
/-- Type expression model (doctrine-style).  `functionType` is the shape
synthesized by `typeSection` for kind-only comments: the comment's `params`
(comment tags) plus the optional `result` type. -/
inductive TypeExpr where
  | nameExpression (name : String)
  | functionType (params : List CommentTag) (result : Option TypeExpr)
  | unionType (elements : List TypeExpr)


/-- Comment tag: the sub-entry used for params/properties/returns/throws.
`properties` distinguishes an absent list from a present empty list, as the
JS object does. -/
inductive CommentTag where
  | mk (name : String) (type : Option TypeExpr) (description : Option Node)
       (dflt : Option String) (properties : Option (List CommentTag))

end

def CommentTag.name : CommentTag → String
  | .mk n _ _ _ _ => n

def CommentTag.type : CommentTag → Option TypeExpr
  | .mk _ t _ _ _ => t

def CommentTag.description : CommentTag → Option Node
  | .mk _ _ d _ _ => d

def CommentTag.dflt : CommentTag → Option String
  | .mk _ _ _ d _ => d

def CommentTag.properties : CommentTag → Option (List CommentTag)
  | .mk _ _ _ _ p => p

/-- One `@example` entry: optional caption string and the example code. -/
structure CommentExample where
  caption : Option String
  description : String


/-- The `context.github` origin info consulted by the generator. -/
structure GithubInfo where
  url : String
  path : String


/-- Source-location context of a comment (`context.loc.start.line` is the
only part of `loc` the source reads). -/
structure Context where
  github : Option GithubInfo
  locStartLine : Nat


/-- The non-recursive fields of a comment entry. -/
structure CommentData where
  name : Option String := none
  kind : Option String := none
  description : Option Node := none
  type : Option TypeExpr := none
  params : List CommentTag := []
  properties : List CommentTag := []
  returns : List CommentTag := []
  throws : List CommentTag := []
  sees : List Node := []
  examples : List CommentExample := []
  augments : List CommentTag := []
  context : Option Context := none
  version : Option String := none
  since : Option String := none
  copyright : Option Node := none
  author : Option String := none
  license : Option String := none
  deprecated : Option Node := none


/-- A comment entry: its scalar data plus the four member groups
(`static`, `instance`, `global`, `inner`), always present. -/
inductive Comment where
  | mk (data : CommentData)
       (membersStatic membersInstance membersGlobal membersInner : List Comment)


def Comment.data : Comment → CommentData
  | .mk d _ _ _ _ => d

def Comment.membersStatic : Comment → List Comment
  | .mk _ s _ _ _ => s

def Comment.membersInstance : Comment → List Comment
  | .mk _ _ i _ _ => i

def Comment.membersGlobal : Comment → List Comment
  | .mk _ _ _ g _ => g

def Comment.membersInner : Comment → List Comment
  | .mk _ _ _ _ inr => inr

/-- JS truthiness of an optional string field: absent and `''` are falsy. -/
def strTruthy : Option String → Bool
  | none => false
  | some s => !(s == "")

def CommentData.nameOrEmpty (d : CommentData) : String := d.name.getD ""

/-- Options threaded into the generator.  `highlightAuto` comes from
`config.hljs.highlightAuto`; `highlightAutoLanguage` models the external
`hljs.highlightAuto(...).language` syntax classifier.
Modelled from the spec: the classifier is an external collaborator
(`(codeText) -> languageTag`) not part of this module. -/
structure GenOpts where
  highlightAuto : Bool
  highlightAutoLanguage : String → String

/-- `DEFAULT_LANGUAGE` from the source. -/
def defaultLanguage : String := "javascript"

mutual
/-- Modelled from the spec: `src/output/util/format_type.js` is not under
`src/`; per the spec's Type Formatter contract it renders named references
as code spans (link resolution via the Link Resolver is abstracted away),
function types with a parameter list and return type, and union types with
a separator token. -/
def formatType : TypeExpr → List Node
  | .nameExpression n => [.inlineCode n]
  | .functionType ps r =>
      [.text "function ("] ++ formatTagList ps ++
      (match r with
       | some t => [.text "): "] ++ formatType t
       | none => [.text ")"])
  | .unionType es => [.text "("] ++ formatTypeList es ++ [.text ")"]

/-- Modelled from the spec: separator-joined rendering of union members. -/
def formatTypeList : List TypeExpr → List Node
  | [] => []
  | [t] => formatType t
  | t :: ts => formatType t ++ [.text " | "] ++ formatTypeList ts

/-- Modelled from the spec: comma-joined parameter list of a function type. -/
def formatTagList : List CommentTag → List Node
  | [] => []
  | [tag] => formatTagSig tag
  | tag :: ts => formatTagSig tag ++ [.text ", "] ++ formatTagList ts

/-- Modelled from the spec: one parameter (name and optional type) of a
function-type signature. -/
def formatTagSig : CommentTag → List Node
  | .mk n ty _ _ _ =>
      [.text n] ++
      (match ty with
       | some t => [.text ": "] ++ formatType t
       | none => [])
end

/-- `formatType` applied to a possibly-absent type (the JS formatter
returns an empty sequence on `undefined`). -/
def formatTypeOpt : Option TypeExpr → List Node
  | none => []
  | some t => formatType t

/-- `augmentsLink` from the source. -/
def augmentsLink (c : CommentData) : List Node :=
  if c.augments.length > 0 then
    [.paragraph [.strong [.text "Extends: ",
       .text (String.intercalate ", " (c.augments.map CommentTag.name))]]]
  else []

/-- `seeLink` from the source. -/
def seeLink (c : CommentData) : List Node :=
  if c.sees.length > 0 then
    [.list false (c.sees.map (fun see =>
      .listItem [.strong ([.text "See: "] ++ see.children)]))]
  else []

/-- `typeSection` from the source: an explicit type is formatted directly;
otherwise a comment with a (truthy) `kind` has a `FunctionType` synthesized
from its `params` and the type of its first `returns` entry. -/
def typeSection (c : CommentData) : List Node :=
  match c.type with
  | some t => [.paragraph ([.text "Type: "] ++ formatType t)]
  | none =>
      if strTruthy c.kind then
        [.paragraph ([.text "Type: "] ++
          formatType (.functionType c.params
            (c.returns.head?.bind CommentTag.type)))]
      else []

mutual
/-- `paramList` from the source: empty input produces no node at all,
otherwise one unordered list node. -/
def paramList (params : List CommentTag) : List Node :=
  if params.length = 0 then []
  else [.list false (paramItems params)]

def paramItems : List CommentTag → List Node
  | [] => []
  | param :: rest => paramItem param :: paramItems rest

/-- One list item of `paramList`: paragraph with name, optional bold type,
description children and optional default note, then any nested
`properties` sub-list. -/
def paramItem : CommentTag → Node
  | .mk nm ty descr dflt props =>
      .listItem (
        (.paragraph (
           [.inlineCode nm, .text " "] ++
           (match ty with | some t => [.strong (formatType t)] | none => []) ++
           [.text " "] ++
           descriptionChildren descr ++
           (if strTruthy dflt then
              [.paragraph [.text " (optional, default ",
                 .inlineCode (dflt.getD ""), .text ")"]]
            else []))) ::
        (match props with
         | some ps => paramList ps
         | none => []))
end

/-- `paramSection` from the source. -/
def paramSection (c : CommentData) : List Node :=
  if c.params.length > 0 then paramList c.params else []

mutual
/-- `propertyList` from the source: always a list node, even for an empty
input (it is only guarded at the section level). -/
def propertyList (properties : List CommentTag) : Node :=
  .list false (propertyItems properties)

def propertyItems : List CommentTag → List Node
  | [] => []
  | p :: rest => propertyItem p :: propertyItems rest

/-- One list item of `propertyList`; a present (even empty) nested
`properties` list yields a nested `propertyList` node. -/
def propertyItem : CommentTag → Node
  | .mk nm ty descr _ props =>
      .listItem (
        (.paragraph (
           [.inlineCode nm, .text " ", .strong (formatTypeOpt ty), .text " "] ++
           descriptionChildren descr)) ::
        (match props with
         | some ps => [propertyList ps]
         | none => []))
end

/-- `propertySection` from the source. -/
def propertySection (c : CommentData) : List Node :=
  if c.properties.length > 0 then [propertyList c.properties] else []

/-- `throwsSection` from the source. -/
def throwsSection (c : CommentData) : List Node :=
  if c.throws.length > 0 then
    [.list false (c.throws.map (fun ret =>
      .listItem [.paragraph (
        [.text "Throws:", .text " ", .strong (formatTypeOpt ret.type), .text " "] ++
        descriptionChildren ret.description)]))]
  else []

/-- `examplesSection` from the source: a leading `Examples:` text node,
then per example an optional caption paragraph and a code block whose
language is auto-classified only when `highlightAuto` is set. -/
def examplesSection (opts : GenOpts) (c : CommentData) : List Node :=
  if c.examples.length > 0 then
    .text "Examples:" :: c.examples.flatMap (fun ex =>
      let language := if opts.highlightAuto
        then opts.highlightAutoLanguage ex.description
        else defaultLanguage
      (if strTruthy ex.caption then
         [.paragraph [.emphasisValue (ex.caption.getD "")]]
       else []) ++
      [.code language ex.description])
  else []

/-- `returnsSection` from the source (defined there but commented out of
the generator's emission chain). -/
def returnsSection (c : CommentData) : List Node :=
  if c.returns.length > 0 then
    c.returns.map (fun ret =>
      .paragraph ([.text "Returns:", .text " ", .strong (formatTypeOpt ret.type), .text " "] ++
        descriptionChildren ret.description))
  else []

/-- `githubLink` from the source (defined there but commented out of the
generator's emission chain). -/
def githubLink (c : CommentData) : List Node :=
  match c.context with
  | some ctx =>
      match ctx.github with
      | some gh =>
          [.paragraph [.text "Source: ",
             .link gh.url (some "Source code on GitHub")
               [.text (gh.path ++ ":" ++ toString ctx.locStartLine)]]]
      | none => []
  | none => []

/-- One metadata list item (`u('listItem', [u('paragraph', [...])])`). -/
def metaItem (label : String) (content : Node) : Node :=
  .listItem [.paragraph [.strong [.text label], .text ": ", content]]

/-- The metadata list items, in the source's fixed tag order
`version, since, copyright, author, license, deprecated`, filtered to the
(truthy) present tags; `copyright` and `deprecated` are rich-text nodes,
the others plain strings. -/
def metaItems (c : CommentData) : List Node :=
  (if strTruthy c.version then [metaItem "version" (.text (c.version.getD ""))] else []) ++
  (if strTruthy c.since then [metaItem "since" (.text (c.since.getD ""))] else []) ++
  (match c.copyright with | some n => [metaItem "copyright" n] | none => []) ++
  (if strTruthy c.author then [metaItem "author" (.text (c.author.getD ""))] else []) ++
  (if strTruthy c.license then [metaItem "license" (.text (c.license.getD ""))] else []) ++
  (match c.deprecated with | some n => [metaItem "deprecated" n] | none => [])

/-- `metaSection` from the source. -/
def metaSection (c : CommentData) : List Node :=
  if (metaItems c).isEmpty then []
  else [.strong [.text "Meta"], .list false (metaItems c)]

/-- The source's fixed metadata tag sequence. -/
def metaTagOrder : List String :=
  ["version", "since", "copyright", "author", "license", "deprecated"]

/-- JS truthiness of `comment[tag]` for each metadata tag: the four string
tags are present when non-empty, the two rich-text tags when the node
exists. -/
def metaTagPresent (c : CommentData) (tag : String) : Bool :=
  if tag = "version" then strTruthy c.version
  else if tag = "since" then strTruthy c.since
  else if tag = "copyright" then c.copyright.isSome
  else if tag = "author" then strTruthy c.author
  else if tag = "license" then strTruthy c.license
  else if tag = "deprecated" then c.deprecated.isSome
  else false

/-- The tag label a metadata list item carries (the text inside its
leading `strong`). -/
def metaItemLabel : Node → Option String
  | .listItem (.paragraph (.strong [.text lb] :: _) :: _) => some lb
  | _ => none

/-- The heading children for a standard entry: the name text, wrapped in a
plain (untitled) link when github origin info is present. -/
def headingNodes (c : CommentData) : List Node :=
  let heading := [Node.text c.nameOrEmpty]
  match c.context with
  | some ctx =>
      match ctx.github with
      | some gh => [Node.link gh.url none heading]
      | none => heading
  | none => heading

mutual
/-- `generate` from the source: the recursive tree generator.  A
`note`-kind entry short-circuits to heading, description node and the
`static` member group; a standard entry emits the fixed section sequence
and then recurses into `global`, `instance`, `static`, `inner` at
`depth + 1`.  Entries that are `false`/`undefined` in the JS concat chain
(removed there by `.filter(Boolean)`) are the empty lists here. -/
def generate (opts : GenOpts) (depth : Nat) : Comment → List Node
  | .mk dt ms mi mg minr =>
    if dt.kind == some "note" then
      Node.heading depth [Node.text dt.nameOrEmpty] ::
      (descriptionNodes dt.description ++
       generateList opts (depth + 1) ms)
    else
      Node.thematicBreak ::
      Node.heading depth (headingNodes dt) ::
      (augmentsLink dt ++
       seeLink dt ++
       descriptionChildren dt.description ++
       typeSection dt ++
       paramSection dt ++
       propertySection dt ++
       throwsSection dt ++
       examplesSection opts dt ++
       metaSection dt ++
       generateList opts (depth + 1) mg ++
       generateList opts (depth + 1) mi ++
       generateList opts (depth + 1) ms ++
       generateList opts (depth + 1) minr)

/-- The `reduce`/`concat` fold the source applies to each member group. -/
def generateList (opts : GenOpts) (depth : Nat) : List Comment → List Node
  | [] => []
  | c :: cs => generate opts depth c ++ generateList opts depth cs
end

/-- The provenance comment node prepended by `buildMarkdownAST`. -/
def generatorComment : List Node :=
  [.html "<!-- Generated by documentation.js. Update this documentation by updating the source code. -->"]

/-- The fixed depth-3 `Table of Contents` heading prepended when
`config.markdownToc` is enabled. -/
def tableOfContentsHeading : List Node :=
  [.heading 3 [.text "Table of Contents"]]

/-- The raw root assembled by `buildMarkdownAST` before the finishing
passes (`rerouteLinks` and the remark toc/reference-links plugins live
outside this module): provenance comment, optional ToC heading, every
top-level comment generated at depth 2, and a closing thematic break. -/
def buildRoot (opts : GenOpts) (markdownToc : Bool) (comments : List Comment) : Node :=
  .root (generatorComment ++
    (if markdownToc then tableOfContentsHeading else []) ++
    generateList opts 2 comments ++
    [.thematicBreak])

/-- Characters deleted by the `github-slugger` dependency's slug rule
(its `specials` character class, by code point). -/
def isSluggerSpecial (c : Char) : Bool :=
  let n := c.toNat
  [33, 34, 35, 36, 37, 38, 39, 40, 41, 42, 43, 44, 46, 47, 58, 59, 60, 61,
   62, 63, 64, 91, 92, 93, 94, 96, 123, 124, 125, 126].contains n ||
  (0x2000 ≤ n && n ≤ 0x206F) || (0x2E00 ≤ n && n ≤ 0x2E7F)

/-- `String.prototype.trim`: leading and trailing whitespace removed. -/
def trimChars (cs : List Char) : List Char :=
  ((cs.dropWhile Char.isWhitespace).reverse.dropWhile Char.isWhitespace).reverse

/-- The slug a freshly constructed `GithubSlugger` returns for its first
input: lower-case, trim, drop specials, map whitespace to `-`.  (The
library's duplicate counter only acts on later calls to the same
instance.) -/
def githubSlug (s : String) : String :=
  String.mk (((trimChars (s.data.map Char.toLower)).filter
    (fun c => !isSluggerSpecial c)).map
    (fun c => if c.isWhitespace then '-' else c))

/-- The anchor function `buildMarkdownAST` passes to
`LinkerStack.namespaceResolver`: it constructs a **new** `GithubSlugger`
for every namespace and returns `'#' + slugger.slug(namespace)`. -/
def namespaceAnchor (ns : String) : String :=
  "#" ++ githubSlug ns

/-! ### Spec-side layout definitions

These restate the spec's prose about emission order; the theorems below
compare them with `generate` as translated from the source. -/

/-- The per-entry section sequence in the order the spec's words give it:
thematic break, heading (source-linked when github origin info is
present), extends summary, see-also list, description body, type section,
parameters, properties, thrown errors, examples, metadata. -/
def specSectionOrder (opts : GenOpts) (depth : Nat) (c : CommentData) : List Node :=
  [Node.thematicBreak] ++
  [Node.heading depth (headingNodes c)] ++
  augmentsLink c ++
  seeLink c ++
  descriptionChildren c.description ++
  typeSection c ++
  paramSection c ++
  propertySection c ++
  throwsSection c ++
  examplesSection opts c ++
  metaSection c

/-- The member-group recursion in the spec's order: `global`, `instance`,
`static`, `inner`, each child generated at `depth + 1`, children kept in
input sequence order. -/
def specMemberOrder (opts : GenOpts) (depth : Nat) (c : Comment) : List Node :=
  (c.membersGlobal.map (generate opts (depth + 1))).flatten ++
  (c.membersInstance.map (generate opts (depth + 1))).flatten ++
  (c.membersStatic.map (generate opts (depth + 1))).flatten ++
  (c.membersInner.map (generate opts (depth + 1))).flatten

/-- The spec's short-circuit layout for a `note`-kind entry: heading, the
description node, then only the `static` member group. -/
def specNoteLayout (opts : GenOpts) (depth : Nat) (c : Comment) : List Node :=
  Node.heading depth [Node.text c.data.nameOrEmpty] ::
  (descriptionNodes c.data.description ++
   (c.membersStatic.map (generate opts (depth + 1))).flatten)

/-! ### Heading-depth bookkeeping (for the depth claim) -/

mutual
/-- The depth of every heading node in a document tree, in document order
(a heading contributes its own depth and then its children's). -/
def nodeHeadingDepths : Node → List Nat
  | .root cs => nodesHeadingDepths cs
  | .heading d cs => d :: nodesHeadingDepths cs
  | .paragraph cs => nodesHeadingDepths cs
  | .list _ cs => nodesHeadingDepths cs
  | .listItem cs => nodesHeadingDepths cs
  | .strong cs => nodesHeadingDepths cs
  | .link _ _ cs => nodesHeadingDepths cs
  | .text _ => []
  | .emphasisValue _ => []
  | .inlineCode _ => []
  | .code _ _ => []
  | .html _ => []
  | .thematicBreak => []

def nodesHeadingDepths : List Node → List Nat
  | [] => []
  | n :: ns => nodeHeadingDepths n ++ nodesHeadingDepths ns
end

/-- A possibly-absent rich-text node contains no heading nodes. -/
def optNodeHeadingFree : Option Node → Bool
  | none => true
  | some d => (nodeHeadingDepths d).isEmpty

mutual
/-- A comment tag's rich text (description, nested properties) contains no
heading nodes. -/
def tagHeadingFree : CommentTag → Bool
  | .mk _ _ descr _ props =>
      optNodeHeadingFree descr &&
      (match props with | some ps => tagsHeadingFree ps | none => true)

def tagsHeadingFree : List CommentTag → Bool
  | [] => true
  | t :: ts => tagHeadingFree t && tagsHeadingFree ts
end

/-- The extraction-supplied rich text of one entry's data carries no
heading nodes: per the spec, descriptions are pre-parsed inline prose, so
headings only ever come from the generator itself. -/
def dataHeadingFree (c : CommentData) : Bool :=
  optNodeHeadingFree c.description &&
  (nodesHeadingDepths c.sees).isEmpty &&
  tagsHeadingFree c.params &&
  tagsHeadingFree c.properties &&
  tagsHeadingFree c.throws &&
  optNodeHeadingFree c.copyright &&
  optNodeHeadingFree c.deprecated

mutual
def commentHeadingFree : Comment → Bool
  | .mk dt ms mi mg minr =>
      dataHeadingFree dt && commentsHeadingFree ms && commentsHeadingFree mi &&
      commentsHeadingFree mg && commentsHeadingFree minr

def commentsHeadingFree : List Comment → Bool
  | [] => true
  | c :: cs => commentHeadingFree c && commentsHeadingFree cs
end

mutual
/-- The nesting level of every entry the generator visits, in visit order:
the entry itself at level 0, then the entries of its visited member groups
(`static` only for a note; `global`, `instance`, `static`, `inner`
otherwise) one level deeper. -/
def levels : Comment → List Nat
  | .mk dt ms mi mg minr =>
      if dt.kind == some "note" then
        0 :: (levelsList ms).map (· + 1)
      else
        0 :: ((levelsList mg ++ levelsList mi ++ levelsList ms ++ levelsList minr).map (· + 1))

def levelsList : List Comment → List Nat
  | [] => []
  | c :: cs => levels c ++ levelsList cs
end

/-! ### Detecting the unused returns/source sections -/

/-- The distinctive shape of the paragraphs built by `returnsSection`
(first child `text 'Returns:'`) and `githubLink` (first child
`text 'Source: '`). -/
def isReturnsOrSourcePara : Node → Bool
  | .paragraph (.text v :: _) => v == "Returns:" || v == "Source: "
  | _ => false

mutual
/-- Does any node of the tree (the node itself or a descendant) have the
returns/source paragraph shape? -/
def nodeHasRS : Node → Bool
  | .root cs => nodesHaveRS cs
  | .heading _ cs => nodesHaveRS cs
  | .paragraph cs => isReturnsOrSourcePara (.paragraph cs) || nodesHaveRS cs
  | .list _ cs => nodesHaveRS cs
  | .listItem cs => nodesHaveRS cs
  | .strong cs => nodesHaveRS cs
  | .link _ _ cs => nodesHaveRS cs
  | .text _ => false
  | .emphasisValue _ => false
  | .inlineCode _ => false
  | .code _ _ => false
  | .html _ => false
  | .thematicBreak => false

def nodesHaveRS : List Node → Bool
  | [] => false
  | n :: ns => nodeHasRS n || nodesHaveRS ns
end

/-- A possibly-absent rich-text node holds no returns/source paragraph. -/
def optNodeRSFree : Option Node → Bool
  | none => true
  | some d => !nodeHasRS d

mutual
def tagRSFree : CommentTag → Bool
  | .mk _ _ descr _ props =>
      optNodeRSFree descr &&
      (match props with | some ps => tagsRSFree ps | none => true)

def tagsRSFree : List CommentTag → Bool
  | [] => true
  | t :: ts => tagRSFree t && tagsRSFree ts
end

/-- The extraction-supplied rich text of one entry's data holds no
paragraph of the returns/source shape. -/
def dataRSFree (c : CommentData) : Bool :=
  optNodeRSFree c.description &&
  !nodesHaveRS c.sees &&
  tagsRSFree c.params &&
  tagsRSFree c.properties &&
  tagsRSFree c.throws &&
  optNodeRSFree c.copyright &&
  optNodeRSFree c.deprecated

mutual
def commentRSFree : Comment → Bool
  | .mk dt ms mi mg minr =>
      dataRSFree dt && commentsRSFree ms && commentsRSFree mi &&
      commentsRSFree mg && commentsRSFree minr

def commentsRSFree : List Comment → Bool
  | [] => true
  | c :: cs => commentRSFree c && commentsRSFree cs
end

/-! ### Raw comments with possibly-missing sequences

The JS generator reads `comment.params.length`, `comment.members.static`,
etc. without checking the fields exist; a malformed entry makes the whole
invocation throw.  `RComment` models entries whose sequence fields may be
missing, and `generateE` mirrors `generate` with every unguarded field
access made explicit, so that the error behaviour is statable. -/

structure RCommentData where
  name : Option String := none
  kind : Option String := none
  description : Option Node := none
  type : Option TypeExpr := none
  params : Option (List CommentTag) := none
  properties : Option (List CommentTag) := none
  returns : Option (List CommentTag) := none
  throws : Option (List CommentTag) := none
  sees : Option (List Node) := none
  examples : Option (List CommentExample) := none
  augments : Option (List CommentTag) := none
  context : Option Context := none
  version : Option String := none
  since : Option String := none
  copyright : Option Node := none
  author : Option String := none
  license : Option String := none
  deprecated : Option Node := none

inductive RComment where
  | mk (data : RCommentData)
       (membersStatic membersInstance membersGlobal membersInner : Option (List RComment))

/-- The strict comment data a raw entry denotes (absent sequences read as
empty; only reached by `generateE` once the required ones are present). -/
def stripData (dt : RCommentData) : CommentData :=
  { name := dt.name, kind := dt.kind, description := dt.description,
    type := dt.type, params := dt.params.getD [],
    properties := dt.properties.getD [], returns := dt.returns.getD [],
    throws := dt.throws.getD [], sees := dt.sees.getD [],
    examples := dt.examples.getD [], augments := dt.augments.getD [],
    context := dt.context, version := dt.version, since := dt.since,
    copyright := dt.copyright, author := dt.author, license := dt.license,
    deprecated := dt.deprecated }

mutual
def stripComment : RComment → Comment
  | .mk dt ms mi mg minr =>
      .mk (stripData dt) (stripOpt ms) (stripOpt mi) (stripOpt mg) (stripOpt minr)

def stripOpt : Option (List RComment) → List Comment
  | none => []
  | some l => stripList l

def stripList : List RComment → List Comment
  | [] => []
  | c :: cs => stripComment c :: stripList cs
end

/-- The claim's well-formedness precondition on one entry's data: the
seven tag/node sequences are present. -/
def dataWF (dt : RCommentData) : Bool :=
  dt.params.isSome && dt.properties.isSome && dt.returns.isSome &&
  dt.throws.isSome && dt.sees.isSome && dt.examples.isSome &&
  dt.augments.isSome

mutual
/-- Well-formed raw comment: its data sequences and all four member groups
are present, recursively. -/
def commentWF : RComment → Bool
  | .mk dt ms mi mg minr =>
      dataWF dt && ms.isSome && mi.isSome && mg.isSome && minr.isSome &&
      optWF ms && optWF mi && optWF mg && optWF minr

def optWF : Option (List RComment) → Bool
  | none => true
  | some l => listWF l

def listWF : List RComment → Bool
  | [] => true
  | c :: cs => commentWF c && listWF cs
end

mutual
/-- `generate` over raw comments: each field the JS code dereferences
without a guard becomes an explicit check, and a missing field is the
thrown `TypeError`, propagated as `Except.error` (so no partial tree is
ever returned).  `comment.returns` is *guarded* in `typeSection`
(`comment.returns && comment.returns[0] && ...`), hence no check for it. -/
def generateE (opts : GenOpts) (depth : Nat) : RComment → Except String (List Node)
  | .mk dt ms mi mg minr =>
    if dt.kind == some "note" then
      match ms with
      | none => .error "cannot read length of members.static"
      | some ls =>
          (generateEList opts (depth + 1) ls).map (fun kids =>
            Node.heading depth [Node.text (dt.name.getD "")] ::
            (descriptionNodes dt.description ++ kids))
    else
      match dt.augments with
      | none => .error "cannot read length of augments"
      | some _ =>
      match dt.sees with
      | none => .error "cannot read length of sees"
      | some _ =>
      match dt.params with
      | none => .error "cannot read length of params"
      | some _ =>
      match dt.properties with
      | none => .error "cannot read length of properties"
      | some _ =>
      match dt.throws with
      | none => .error "cannot read length of throws"
      | some _ =>
      match dt.examples with
      | none => .error "cannot read length of examples"
      | some _ =>
      match mg with
      | none => .error "cannot read length of members.global"
      | some lg =>
      match mi with
      | none => .error "cannot read length of members.instance"
      | some li =>
      match ms with
      | none => .error "cannot read length of members.static"
      | some ls =>
      match minr with
      | none => .error "cannot read length of members.inner"
      | some linr => do
        let kg ← generateEList opts (depth + 1) lg
        let ki ← generateEList opts (depth + 1) li
        let ks ← generateEList opts (depth + 1) ls
        let kn ← generateEList opts (depth + 1) linr
        pure (Node.thematicBreak ::
          Node.heading depth (headingNodes (stripData dt)) ::
          (augmentsLink (stripData dt) ++
           seeLink (stripData dt) ++
           descriptionChildren dt.description ++
           typeSection (stripData dt) ++
           paramSection (stripData dt) ++
           propertySection (stripData dt) ++
           throwsSection (stripData dt) ++
           examplesSection opts (stripData dt) ++
           metaSection (stripData dt) ++
           (kg ++ ki ++ ks ++ kn)))

def generateEList (opts : GenOpts) (depth : Nat) : List RComment → Except String (List Node)
  | [] => .ok []
  | c :: cs => do
      let a ← generateE opts depth c
      let b ← generateEList opts depth cs
      pure (a ++ b)
end

/-! ### Sample inputs for the concrete witnesses -/

/-- Sample input for the first-return witness: `kind: function`, no
explicit type, one parameter `x: Number` and a `returns: String` entry. -/
def c6param : CommentTag := .mk "x" (some (.nameExpression "Number")) none none none

def c6ret : CommentTag := .mk "" (some (.nameExpression "String")) none none none

def c6retExtra : CommentTag := .mk "" (some (.nameExpression "Error")) none none none

def c6data : CommentData :=
  { kind := some "function", params := [c6param], returns := [c6ret] }

def c8data : CommentData :=
  { name := some "m", since := some "1.0", deprecated := some (.paragraph [.text "gone"]) }

/-- Sample generator options shared by the concrete witnesses. -/
def sampleOpts : GenOpts := ⟨false, fun _ => defaultLanguage⟩

/-- Three entries nested through `static` members, for the depth witness. -/
def c2grand : Comment := .mk { name := some "g2" } [] [] [] []

def c2child : Comment := .mk { name := some "g1" } [c2grand] [] [] []

def c2root : Comment := .mk { name := some "r" } [c2child] [] [] []

theorem generateList_eq_flatten (opts : GenOpts) (d : Nat) (cs : List Comment) :
    generateList opts d cs = (cs.map (generate opts d)).flatten := by
  induction cs with
  | nil => simp [generateList]
  | cons c cs ih => simp [generateList, ih]

theorem generate_nonNote_split (opts : GenOpts) (d : Nat) (c : Comment)
    (h : c.data.kind ≠ some "note") :
    generate opts d c = specSectionOrder opts d c.data ++ specMemberOrder opts d c := by
  obtain ⟨dt, ms, mi, mg, minr⟩ := c
  have hk : (dt.kind == some "note") = false := by
    simpa [Comment.data] using h
  simp [generate, hk, specSectionOrder, specMemberOrder, Comment.data,
    Comment.membersGlobal, Comment.membersInstance, Comment.membersStatic,
    Comment.membersInner, generateList_eq_flatten]

/-- C3: for every non-note comment entry, the generator's output begins
with exactly the section sequence thematic break, heading (wrapped in a
source link when github origin info is present), extends summary, see-also
list, description body, type section, parameters section, properties
section, thrown-errors section, examples section, metadata section. -/
theorem generate_emits_sections_in_spec_order (opts : GenOpts) (d : Nat)
    (c : Comment) (h : c.data.kind ≠ some "note") :
    specSectionOrder opts d c.data <+: generate opts d c :=
  ⟨specMemberOrder opts d c, (generate_nonNote_split opts d c h).symm⟩

theorem generate_emits_sections_in_spec_order_witness :
    specSectionOrder ⟨false, fun _ => defaultLanguage⟩ 2
        ({ name := some "f", kind := some "function" } : CommentData) <+:
      generate ⟨false, fun _ => defaultLanguage⟩ 2
        (.mk { name := some "f", kind := some "function" } [] [] [] []) :=
  generate_emits_sections_in_spec_order ⟨false, fun _ => defaultLanguage⟩ 2
    (.mk { name := some "f", kind := some "function" } [] [] [] []) (by decide)

/-- C4: for every non-note comment entry at depth `d`, the output is the
section sequence followed by the member groups strictly in the order
`global`, `instance`, `static`, `inner`, each child generated at `d + 1`
and kept in input sequence order (concatenated, never re-sorted). -/
theorem generate_recurses_in_group_order (opts : GenOpts) (d : Nat)
    (c : Comment) (h : c.data.kind ≠ some "note") :
    generate opts d c = specSectionOrder opts d c.data ++ specMemberOrder opts d c :=
  generate_nonNote_split opts d c h

theorem generate_recurses_in_group_order_witness :
    generate ⟨false, fun _ => defaultLanguage⟩ 2
        (.mk { name := some "C", kind := some "class" }
          [.mk { name := some "s" } [] [] [] []]
          [.mk { name := some "i" } [] [] [] []] [] []) =
      specSectionOrder ⟨false, fun _ => defaultLanguage⟩ 2
        ({ name := some "C", kind := some "class" } : CommentData) ++
      specMemberOrder ⟨false, fun _ => defaultLanguage⟩ 2
        (.mk { name := some "C", kind := some "class" }
          [.mk { name := some "s" } [] [] [] []]
          [.mk { name := some "i" } [] [] [] []] [] []) :=
  generate_recurses_in_group_order ⟨false, fun _ => defaultLanguage⟩ 2 _ (by decide)

/-- C5: a `note`-kind entry produces only its heading and its description
node, followed by the recursively generated output of its `static` member
group; no other section builder output and no other member group appears. -/
theorem generate_note_short_circuit (opts : GenOpts) (d : Nat) (c : Comment)
    (h : c.data.kind = some "note") :
    generate opts d c = specNoteLayout opts d c := by
  obtain ⟨dt, ms, mi, mg, minr⟩ := c
  have hk : (dt.kind == some "note") = true := by
    simpa [Comment.data] using h
  simp [generate, hk, specNoteLayout, Comment.data, Comment.membersStatic,
    CommentData.nameOrEmpty, generateList_eq_flatten]

theorem generate_note_short_circuit_witness :
    generate ⟨false, fun _ => defaultLanguage⟩ 2
        (.mk { name := some "TOC", kind := some "note" }
          [.mk { name := some "a" } [] [] [] [],
           .mk { name := some "b" } [] [] [] [],
           .mk { name := some "c" } [] [] [] []]
          [.mk { name := some "inst" } [] [] [] []] [] []) =
      specNoteLayout ⟨false, fun _ => defaultLanguage⟩ 2
        (.mk { name := some "TOC", kind := some "note" }
          [.mk { name := some "a" } [] [] [] [],
           .mk { name := some "b" } [] [] [] [],
           .mk { name := some "c" } [] [] [] []]
          [.mk { name := some "inst" } [] [] [] []] [] []) :=
  generate_note_short_circuit ⟨false, fun _ => defaultLanguage⟩ 2 _ rfl

/-- C6: a comment entry with no explicit type but a (truthy) kind gets a
type section synthesized from its `params` and only the first element of
`returns`; any further `returns` entries do not affect the synthesized
signature. -/
theorem typeSection_uses_only_first_return (c : CommentData)
    (htype : c.type = none) (hkind : strTruthy c.kind = true) :
    typeSection c =
      [.paragraph ([.text "Type: "] ++
        formatType (.functionType c.params (c.returns.head?.bind CommentTag.type)))] ∧
    ∀ (r : CommentTag) (rest rest' : List CommentTag),
      typeSection { c with returns := r :: rest } =
      typeSection { c with returns := r :: rest' } := by
  refine ⟨by simp [typeSection, htype, hkind], ?_⟩
  intro r rest rest'
  simp [typeSection, htype, hkind]

theorem typeSection_uses_only_first_return_witness :
    typeSection c6data =
      [.paragraph ([.text "Type: "] ++
        formatType (.functionType [c6param] (some (.nameExpression "String"))))] ∧
    typeSection { c6data with returns := [c6ret, c6retExtra] } =
      typeSection { c6data with returns := [c6ret] } := by
  have h := typeSection_uses_only_first_return c6data rfl rfl
  exact ⟨h.1, h.2 c6ret [c6retExtra] []⟩

/-- C7: every section builder contributes no nodes at all when its
underlying data is empty or absent: empty `params`, `properties`,
`throws`, `sees`, `examples`, `augments`, and all metadata tags absent
each yield the empty node sequence (never an empty list node). -/
theorem empty_data_yields_no_section (opts : GenOpts) (c : CommentData) :
    (c.params = [] → paramSection c = []) ∧
    (c.properties = [] → propertySection c = []) ∧
    (c.throws = [] → throwsSection c = []) ∧
    (c.sees = [] → seeLink c = []) ∧
    (c.examples = [] → examplesSection opts c = []) ∧
    (c.augments = [] → augmentsLink c = []) ∧
    (strTruthy c.version = false → strTruthy c.since = false →
     c.copyright = none → strTruthy c.author = false →
     strTruthy c.license = false → c.deprecated = none →
     metaSection c = []) := by
  refine ⟨fun h => by simp [paramSection, h], fun h => by simp [propertySection, h],
    fun h => by simp [throwsSection, h], fun h => by simp [seeLink, h],
    fun h => by simp [examplesSection, h], fun h => by simp [augmentsLink, h],
    fun h1 h2 h3 h4 h5 h6 => by
      simp [metaSection, metaItems, h1, h2, h3, h4, h5, h6]⟩

theorem empty_data_yields_no_section_witness :
    paramSection ({ name := some "e" } : CommentData) = [] ∧
    propertySection ({ name := some "e" } : CommentData) = [] ∧
    throwsSection ({ name := some "e" } : CommentData) = [] ∧
    seeLink ({ name := some "e" } : CommentData) = [] ∧
    examplesSection ⟨false, fun _ => defaultLanguage⟩
      ({ name := some "e" } : CommentData) = [] ∧
    augmentsLink ({ name := some "e" } : CommentData) = [] ∧
    metaSection ({ name := some "e" } : CommentData) = [] := by
  have h := empty_data_yields_no_section ⟨false, fun _ => defaultLanguage⟩
    ({ name := some "e" } : CommentData)
  exact ⟨h.1 rfl, h.2.1 rfl, h.2.2.1 rfl, h.2.2.2.1 rfl, h.2.2.2.2.1 rfl,
    h.2.2.2.2.2.1 rfl, h.2.2.2.2.2.2 rfl rfl rfl rfl rfl rfl⟩

/-- C8: for every comment entry, the metadata section emits exactly one
list item per present tag, ordered by the fixed sequence version, since,
copyright, author, license, deprecated filtered to the present tags (the
item labels are exactly that filtered sequence, for every combination of
present tags); the section is absent exactly when no tag is present, and
otherwise consists of the `Meta` header and the list of those items.  An
entry with only `since` and `deprecated` therefore emits exactly two
items, since then deprecated. -/
theorem metaSection_fixed_tag_order (c : CommentData) :
    (metaItems c).map metaItemLabel =
      (metaTagOrder.filter (metaTagPresent c)).map some ∧
    metaSection c =
      (if metaTagOrder.filter (metaTagPresent c) = [] then []
       else [.strong [.text "Meta"], .list false (metaItems c)]) := by
  have hlabels : (metaItems c).map metaItemLabel =
      (metaTagOrder.filter (metaTagPresent c)).map some := by
    unfold metaItems metaTagOrder
    rcases hcp : c.copyright with _ | cn <;>
    rcases hdp : c.deprecated with _ | dn <;>
    cases hv : strTruthy c.version <;>
    cases hs : strTruthy c.since <;>
    cases ha : strTruthy c.author <;>
    cases hl : strTruthy c.license <;>
      simp [metaTagPresent, metaItem, metaItemLabel, hcp, hdp, hv, hs, ha, hl,
        List.filter]
  refine ⟨hlabels, ?_⟩
  have hlen : (metaItems c).length =
      (metaTagOrder.filter (metaTagPresent c)).length := by
    simpa using congrArg List.length hlabels
  unfold metaSection
  split
  · next hemp =>
      have h0 : metaItems c = [] := by simpa [List.isEmpty_iff] using hemp
      have hfil : metaTagOrder.filter (metaTagPresent c) = [] := by
        have := hlen
        rw [h0] at this
        exact List.eq_nil_of_length_eq_zero this.symm
      simp [hfil]
  · next hemp =>
      have h0 : metaItems c ≠ [] := by simpa [List.isEmpty_iff] using hemp
      have hfil : metaTagOrder.filter (metaTagPresent c) ≠ [] := by
        intro hf
        apply h0
        apply List.eq_nil_of_length_eq_zero
        rw [hlen, hf]
        rfl
      simp [hfil]

theorem metaSection_fixed_tag_order_witness :
    (metaItems c8data).map metaItemLabel = [some "since", some "deprecated"] ∧
    metaSection c8data =
      [.strong [.text "Meta"],
       .list false [metaItem "since" (.text "1.0"),
         metaItem "deprecated" (.paragraph [.text "gone"])]] := by
  have h := metaSection_fixed_tag_order c8data
  exact ⟨h.1.trans (by decide), h.2.trans (by rfl)⟩

/-- C1 fails on the code: the anchor function constructs a fresh
`GithubSlugger` per namespace, so the two distinct namespaces `"Foo Bar"`
and `"foo-bar"`, which slug identically, receive the *same* anchor rather
than two distinct ones. -/
theorem namespaceAnchor_collision :
    ("Foo Bar" : String) ≠ "foo-bar" ∧
    githubSlug "Foo Bar" = githubSlug "foo-bar" ∧
    namespaceAnchor "Foo Bar" = namespaceAnchor "foo-bar" := by
  refine ⟨by decide, by decide, by decide⟩

/-- C1 (amended): the anchor assigned to a namespace is a pure function of
its slug, so any two namespaces with the same slug receive the same
(colliding) anchor — collisions are not disambiguated, because a fresh
slugger (whose duplicate counter is empty) is created for every call. -/
theorem namespaceAnchor_determined_by_slug (ns1 ns2 : String)
    (h : githubSlug ns1 = githubSlug ns2) :
    namespaceAnchor ns1 = namespaceAnchor ns2 := by
  simp [namespaceAnchor, h]

theorem namespaceAnchor_determined_by_slug_witness :
    namespaceAnchor "Foo Bar" = namespaceAnchor "foo-bar" :=
  namespaceAnchor_determined_by_slug "Foo Bar" "foo-bar" (by decide)

/-! ### Heading depths: auxiliary lemmas -/

theorem nodesHeadingDepths_append (l1 l2 : List Node) :
    nodesHeadingDepths (l1 ++ l2) = nodesHeadingDepths l1 ++ nodesHeadingDepths l2 := by
  induction l1 with
  | nil => simp [nodesHeadingDepths]
  | cons n ns ih => simp [nodesHeadingDepths, ih]

theorem nodesHeadingDepths_children (n : Node) (h : nodeHeadingDepths n = []) :
    nodesHeadingDepths n.children = [] := by
  cases n <;> simp_all [nodeHeadingDepths, Node.children, nodesHeadingDepths]

theorem nodesHeadingDepths_ite (p : Prop) [Decidable p] (l1 l2 : List Node)
    (h1 : nodesHeadingDepths l1 = []) (h2 : nodesHeadingDepths l2 = []) :
    nodesHeadingDepths (if p then l1 else l2) = [] := by
  split <;> assumption

theorem nodesHeadingDepths_eq_nil_of_mem (l : List Node)
    (h : nodesHeadingDepths l = []) : ∀ n ∈ l, nodeHeadingDepths n = [] := by
  induction l with
  | nil => simp
  | cons x xs ih =>
      simp only [nodesHeadingDepths, List.append_eq_nil] at h
      intro n hn
      rcases List.mem_cons.mp hn with rfl | hn
      · exact h.1
      · exact ih h.2 n hn

theorem nodesHeadingDepths_map {α : Type} (f : α → Node) (l : List α)
    (h : ∀ x ∈ l, nodeHeadingDepths (f x) = []) :
    nodesHeadingDepths (l.map f) = [] := by
  induction l with
  | nil => simp [nodesHeadingDepths]
  | cons x xs ih =>
      simp [nodesHeadingDepths, h x (by simp),
        ih (fun y hy => h y (by simp [hy]))]

theorem nodesHeadingDepths_flatMap {α : Type} (f : α → List Node) (l : List α)
    (h : ∀ x ∈ l, nodesHeadingDepths (f x) = []) :
    nodesHeadingDepths (l.flatMap f) = [] := by
  induction l with
  | nil => simp [nodesHeadingDepths]
  | cons x xs ih =>
      simp [List.flatMap_cons, nodesHeadingDepths_append, h x (by simp),
        ih (fun y hy => h y (by simp [hy]))]

mutual
theorem formatType_headingFree : ∀ t : TypeExpr, nodesHeadingDepths (formatType t) = []
  | .nameExpression n => by
      simp [formatType, nodesHeadingDepths, nodeHeadingDepths]
  | .functionType ps none => by
      have h := formatTagList_headingFree ps
      simp [formatType, nodesHeadingDepths, nodeHeadingDepths, nodesHeadingDepths_append, h]
  | .functionType ps (some t) => by
      have h := formatTagList_headingFree ps
      have h2 := formatType_headingFree t
      simp [formatType, nodesHeadingDepths, nodeHeadingDepths, nodesHeadingDepths_append, h, h2]
  | .unionType es => by
      have h := formatTypeList_headingFree es
      simp [formatType, nodesHeadingDepths, nodeHeadingDepths, nodesHeadingDepths_append, h]

theorem formatTypeList_headingFree : ∀ ts : List TypeExpr,
    nodesHeadingDepths (formatTypeList ts) = []
  | [] => by simp [formatTypeList, nodesHeadingDepths]
  | [t] => by
      have h := formatType_headingFree t
      simp [formatTypeList, h]
  | t :: t2 :: ts => by
      have h := formatType_headingFree t
      have h2 := formatTypeList_headingFree (t2 :: ts)
      simp [formatTypeList, nodesHeadingDepths_append, nodesHeadingDepths, nodeHeadingDepths, h, h2]

theorem formatTagList_headingFree : ∀ ts : List CommentTag,
    nodesHeadingDepths (formatTagList ts) = []
  | [] => by simp [formatTagList, nodesHeadingDepths]
  | [tag] => by
      have h := formatTagSig_headingFree tag
      simp [formatTagList, h]
  | tag :: t2 :: ts => by
      have h := formatTagSig_headingFree tag
      have h2 := formatTagList_headingFree (t2 :: ts)
      simp [formatTagList, nodesHeadingDepths_append, nodesHeadingDepths, nodeHeadingDepths, h, h2]

theorem formatTagSig_headingFree : ∀ tag : CommentTag,
    nodesHeadingDepths (formatTagSig tag) = []
  | .mk n none de df p => by
      simp [formatTagSig, nodesHeadingDepths, nodeHeadingDepths]
  | .mk n (some t) de df p => by
      have h := formatType_headingFree t
      simp [formatTagSig, nodesHeadingDepths, nodeHeadingDepths, nodesHeadingDepths_append, h]
end

theorem formatTypeOpt_headingFree : ∀ t : Option TypeExpr,
    nodesHeadingDepths (formatTypeOpt t) = []
  | none => by simp [formatTypeOpt, nodesHeadingDepths]
  | some t => by simpa [formatTypeOpt] using formatType_headingFree t

theorem descriptionChildren_headingFree (descr : Option Node)
    (h : optNodeHeadingFree descr = true) :
    nodesHeadingDepths (descriptionChildren descr) = [] := by
  rcases descr with _ | d
  · simp [descriptionChildren, nodesHeadingDepths]
  · have hd : nodeHeadingDepths d = [] := by
      simpa [optNodeHeadingFree, List.isEmpty_iff] using h
    simpa [descriptionChildren] using nodesHeadingDepths_children d hd

theorem descriptionNodes_headingFree (descr : Option Node)
    (h : optNodeHeadingFree descr = true) :
    nodesHeadingDepths (descriptionNodes descr) = [] := by
  rcases descr with _ | d
  · simp [descriptionNodes, nodesHeadingDepths]
  · have hd : nodeHeadingDepths d = [] := by
      simpa [optNodeHeadingFree, List.isEmpty_iff] using h
    simp [descriptionNodes, nodesHeadingDepths, hd]

theorem headingNodes_headingFree (c : CommentData) :
    nodesHeadingDepths (headingNodes c) = [] := by
  rcases hc : c.context with _ | ctx
  · simp [headingNodes, hc, nodesHeadingDepths, nodeHeadingDepths]
  · rcases hg : ctx.github with _ | gh <;>
      simp [headingNodes, hc, hg, nodesHeadingDepths, nodeHeadingDepths]

theorem augmentsLink_headingFree (c : CommentData) :
    nodesHeadingDepths (augmentsLink c) = [] := by
  unfold augmentsLink
  split <;> simp [nodesHeadingDepths, nodeHeadingDepths]

theorem nodesHeadingDepths_single_list (b : Bool) (l : List Node) :
    nodesHeadingDepths [Node.list b l] = nodesHeadingDepths l := by
  simp [nodesHeadingDepths, nodeHeadingDepths]

theorem seeLink_headingFree (c : CommentData)
    (h : nodesHeadingDepths c.sees = []) :
    nodesHeadingDepths (seeLink c) = [] := by
  unfold seeLink
  split
  · rw [nodesHeadingDepths_single_list]
    refine nodesHeadingDepths_map _ c.sees (fun see hsee => ?_)
    have hfree := nodesHeadingDepths_eq_nil_of_mem c.sees h see hsee
    have hch := nodesHeadingDepths_children see hfree
    simp [nodeHeadingDepths, nodesHeadingDepths, nodesHeadingDepths_append, hch]
  · simp [nodesHeadingDepths]

theorem typeSection_headingFree (c : CommentData) :
    nodesHeadingDepths (typeSection c) = [] := by
  unfold typeSection
  split
  · simp [nodesHeadingDepths, nodeHeadingDepths, nodesHeadingDepths_append,
      formatType_headingFree]
  · split
    · simp [nodesHeadingDepths, nodeHeadingDepths, nodesHeadingDepths_append,
        formatType_headingFree]
    · simp [nodesHeadingDepths]

mutual
theorem paramList_headingFree : ∀ ps, tagsHeadingFree ps = true →
    nodesHeadingDepths (paramList ps) = []
  | ps, h => by
      unfold paramList
      split
      · simp [nodesHeadingDepths]
      · have hi := paramItems_headingFree ps h
        simp [nodesHeadingDepths, nodeHeadingDepths, hi]

theorem paramItems_headingFree : ∀ ps, tagsHeadingFree ps = true →
    nodesHeadingDepths (paramItems ps) = []
  | [], _ => by simp [paramItems, nodesHeadingDepths]
  | p :: ps, h => by
      have hp : tagHeadingFree p = true ∧ tagsHeadingFree ps = true := by
        simpa [tagsHeadingFree, Bool.and_eq_true] using h
      have h1 := paramItem_headingFree p hp.1
      have h2 := paramItems_headingFree ps hp.2
      simp [paramItems, nodesHeadingDepths, h1, h2]

theorem paramItem_headingFree : ∀ p, tagHeadingFree p = true →
    nodeHeadingDepths (paramItem p) = []
  | .mk nm ty descr dflt none, h => by
      have hh : optNodeHeadingFree descr = true := by
        simpa [tagHeadingFree] using h
      have hdesc := descriptionChildren_headingFree descr hh
      rcases ty with _ | t <;>
        rcases hdf : strTruthy dflt with _ | _ <;>
          simp [paramItem, hdf, nodeHeadingDepths, nodesHeadingDepths,
            nodesHeadingDepths_append, hdesc, formatType_headingFree]
  | .mk nm ty descr dflt (some ps), h => by
      have hh : optNodeHeadingFree descr = true ∧ tagsHeadingFree ps = true := by
        simpa [tagHeadingFree, Bool.and_eq_true] using h
      have hdesc := descriptionChildren_headingFree descr hh.1
      have hprops := paramList_headingFree ps hh.2
      rcases ty with _ | t <;>
        rcases hdf : strTruthy dflt with _ | _ <;>
          simp [paramItem, hdf, nodeHeadingDepths, nodesHeadingDepths,
            nodesHeadingDepths_append, hdesc, hprops, formatType_headingFree]
end

mutual
theorem propertyList_headingFree : ∀ ps, tagsHeadingFree ps = true →
    nodeHeadingDepths (propertyList ps) = []
  | ps, h => by
      have hi := propertyItems_headingFree ps h
      simp [propertyList, nodeHeadingDepths, hi]

theorem propertyItems_headingFree : ∀ ps, tagsHeadingFree ps = true →
    nodesHeadingDepths (propertyItems ps) = []
  | [], _ => by simp [propertyItems, nodesHeadingDepths]
  | p :: ps, h => by
      have hp : tagHeadingFree p = true ∧ tagsHeadingFree ps = true := by
        simpa [tagsHeadingFree, Bool.and_eq_true] using h
      have h1 := propertyItem_headingFree p hp.1
      have h2 := propertyItems_headingFree ps hp.2
      simp [propertyItems, nodesHeadingDepths, h1, h2]

theorem propertyItem_headingFree : ∀ p, tagHeadingFree p = true →
    nodeHeadingDepths (propertyItem p) = []
  | .mk nm ty descr dflt none, h => by
      have hh : optNodeHeadingFree descr = true := by
        simpa [tagHeadingFree] using h
      have hdesc := descriptionChildren_headingFree descr hh
      simp [propertyItem, nodeHeadingDepths, nodesHeadingDepths,
        nodesHeadingDepths_append, formatTypeOpt_headingFree, hdesc]
  | .mk nm ty descr dflt (some ps), h => by
      have hh : optNodeHeadingFree descr = true ∧ tagsHeadingFree ps = true := by
        simpa [tagHeadingFree, Bool.and_eq_true] using h
      have hdesc := descriptionChildren_headingFree descr hh.1
      have hprops := propertyList_headingFree ps hh.2
      simp [propertyItem, nodeHeadingDepths, nodesHeadingDepths,
        nodesHeadingDepths_append, formatTypeOpt_headingFree, hdesc, hprops]
end

theorem tagsHeadingFree_mem (l : List CommentTag) (h : tagsHeadingFree l = true) :
    ∀ t ∈ l, tagHeadingFree t = true := by
  induction l with
  | nil => simp
  | cons x xs ih =>
      simp only [tagsHeadingFree, Bool.and_eq_true] at h
      intro t ht
      rcases List.mem_cons.mp ht with rfl | ht
      · exact h.1
      · exact ih h.2 t ht

theorem paramSection_headingFree (c : CommentData)
    (h : tagsHeadingFree c.params = true) :
    nodesHeadingDepths (paramSection c) = [] := by
  unfold paramSection
  split
  · exact paramList_headingFree c.params h
  · simp [nodesHeadingDepths]

theorem propertySection_headingFree (c : CommentData)
    (h : tagsHeadingFree c.properties = true) :
    nodesHeadingDepths (propertySection c) = [] := by
  unfold propertySection
  split
  · simp [nodesHeadingDepths, propertyList_headingFree c.properties h]
  · simp [nodesHeadingDepths]

theorem throwsSection_headingFree (c : CommentData)
    (h : tagsHeadingFree c.throws = true) :
    nodesHeadingDepths (throwsSection c) = [] := by
  unfold throwsSection
  split
  · rw [nodesHeadingDepths_single_list]
    refine nodesHeadingDepths_map _ c.throws (fun t ht => ?_)
    have htf := tagsHeadingFree_mem c.throws h t ht
    obtain ⟨nm, ty, descr, df, pr⟩ := t
    have hh : optNodeHeadingFree descr = true := by
      rcases pr with _ | ps
      · simpa [tagHeadingFree] using htf
      · have hconj : optNodeHeadingFree descr = true ∧ tagsHeadingFree ps = true := by
          simpa [tagHeadingFree, Bool.and_eq_true] using htf
        exact hconj.1
    have hdesc := descriptionChildren_headingFree descr hh
    simp [nodeHeadingDepths, nodesHeadingDepths, nodesHeadingDepths_append,
      formatTypeOpt_headingFree, CommentTag.description, CommentTag.type, hdesc]
  · simp [nodesHeadingDepths]

theorem examplesSection_headingFree (opts : GenOpts) (c : CommentData) :
    nodesHeadingDepths (examplesSection opts c) = [] := by
  unfold examplesSection
  split
  · simp only [nodesHeadingDepths, nodeHeadingDepths, List.nil_append]
    refine nodesHeadingDepths_flatMap _ c.examples (fun ex _ => ?_)
    rw [nodesHeadingDepths_append]
    have h1 : nodesHeadingDepths (if strTruthy ex.caption = true then
        [Node.paragraph [Node.emphasisValue (ex.caption.getD "")]] else []) = [] := by
      split <;> simp [nodesHeadingDepths, nodeHeadingDepths]
    simp [h1, nodesHeadingDepths, nodeHeadingDepths]
  · simp [nodesHeadingDepths]

theorem metaItem_headingFree (label : String) (content : Node)
    (h : nodeHeadingDepths content = []) :
    nodeHeadingDepths (metaItem label content) = [] := by
  simp [metaItem, nodeHeadingDepths, nodesHeadingDepths, nodesHeadingDepths_append, h]

theorem metaItems_headingFree (c : CommentData)
    (h1 : optNodeHeadingFree c.copyright = true)
    (h2 : optNodeHeadingFree c.deprecated = true) :
    nodesHeadingDepths (metaItems c) = [] := by
  have hcpy : nodesHeadingDepths
      (match c.copyright with | some n => [metaItem "copyright" n] | none => []) = [] := by
    rcases hc : c.copyright with _ | n
    · simp [nodesHeadingDepths]
    · have hn : nodeHeadingDepths n = [] := by
        simpa [optNodeHeadingFree, hc, List.isEmpty_iff] using h1
      simp [nodesHeadingDepths, metaItem_headingFree _ _ hn]
  have hdep : nodesHeadingDepths
      (match c.deprecated with | some n => [metaItem "deprecated" n] | none => []) = [] := by
    rcases hc : c.deprecated with _ | n
    · simp [nodesHeadingDepths]
    · have hn : nodeHeadingDepths n = [] := by
        simpa [optNodeHeadingFree, hc, List.isEmpty_iff] using h2
      simp [nodesHeadingDepths, metaItem_headingFree _ _ hn]
  unfold metaItems
  repeat rw [nodesHeadingDepths_append]
  rw [hcpy, hdep]
  have htext : ∀ (lb v : String),
      nodesHeadingDepths [metaItem lb (Node.text v)] = [] := by
    intro lb v
    simp [nodesHeadingDepths, metaItem_headingFree _ _ (by
      simp [nodeHeadingDepths] : nodeHeadingDepths (Node.text v) = [])]
  refine ?_
  rw [nodesHeadingDepths_ite _ _ _ (htext _ _) (by simp [nodesHeadingDepths]),
    nodesHeadingDepths_ite _ _ _ (htext _ _) (by simp [nodesHeadingDepths]),
    nodesHeadingDepths_ite _ _ _ (htext _ _) (by simp [nodesHeadingDepths]),
    nodesHeadingDepths_ite _ _ _ (htext _ _) (by simp [nodesHeadingDepths])]
  simp

theorem metaSection_headingFree (c : CommentData)
    (h1 : optNodeHeadingFree c.copyright = true)
    (h2 : optNodeHeadingFree c.deprecated = true) :
    nodesHeadingDepths (metaSection c) = [] := by
  unfold metaSection
  split
  · simp [nodesHeadingDepths]
  · simp [nodesHeadingDepths, nodeHeadingDepths, metaItems_headingFree c h1 h2]

theorem depths_map_shift (d : Nat) (L : List Nat) :
    (L.map (· + 1)).map (fun k => d + k) = L.map (fun k => d + 1 + k) := by
  induction L with
  | nil => simp
  | cons a L ih => simp [ih]; omega

mutual
theorem generate_headingDepths : ∀ (opts : GenOpts) (d : Nat) (c : Comment),
    commentHeadingFree c = true →
    nodesHeadingDepths (generate opts d c) = (levels c).map (fun k => d + k)
  | opts, d, .mk dt ms mi mg minr, h => by
      have h' : ((((dataHeadingFree dt && commentsHeadingFree ms) &&
          commentsHeadingFree mi) && commentsHeadingFree mg) &&
          commentsHeadingFree minr) = true := by
        simpa [commentHeadingFree] using h
      simp only [Bool.and_eq_true] at h'
      obtain ⟨⟨⟨⟨h0, hms⟩, hmi⟩, hmg⟩, hminr⟩ := h'
      have h0' : ((((((optNodeHeadingFree dt.description &&
          (nodesHeadingDepths dt.sees).isEmpty) && tagsHeadingFree dt.params) &&
          tagsHeadingFree dt.properties) && tagsHeadingFree dt.throws) &&
          optNodeHeadingFree dt.copyright) && optNodeHeadingFree dt.deprecated) = true := by
        simpa [dataHeadingFree] using h0
      simp only [Bool.and_eq_true] at h0'
      obtain ⟨⟨⟨⟨⟨⟨hdesc, hsees⟩, hpar⟩, hprop⟩, hthr⟩, hcpy⟩, hdep⟩ := h0'
      have hseesL : nodesHeadingDepths dt.sees = [] := by
        simpa [List.isEmpty_iff] using hsees
      have hfun : ((fun k => d + k) ∘ fun x => x + 1) = fun k => d + 1 + k := by
        funext x
        simp [Function.comp]
        omega
      by_cases hk : (dt.kind == some "note") = true
      · have IH := generateList_headingDepths opts (d + 1) ms hms
        have hd1 := descriptionNodes_headingFree dt.description hdesc
        simp [generate, hk, levels, nodesHeadingDepths, nodeHeadingDepths,
          nodesHeadingDepths_append, hd1, IH, List.map_map, hfun]
      · have IHg := generateList_headingDepths opts (d + 1) mg hmg
        have IHi := generateList_headingDepths opts (d + 1) mi hmi
        have IHs := generateList_headingDepths opts (d + 1) ms hms
        have IHn := generateList_headingDepths opts (d + 1) minr hminr
        have b1 := headingNodes_headingFree dt
        have b2 := augmentsLink_headingFree dt
        have b3 := seeLink_headingFree dt hseesL
        have b4 := descriptionChildren_headingFree dt.description hdesc
        have b5 := typeSection_headingFree dt
        have b6 := paramSection_headingFree dt hpar
        have b7 := propertySection_headingFree dt hprop
        have b8 := throwsSection_headingFree dt hthr
        have b9 := examplesSection_headingFree opts dt
        have b10 := metaSection_headingFree dt hcpy hdep
        simp [generate, hk, levels, nodesHeadingDepths, nodeHeadingDepths,
          nodesHeadingDepths_append, b1, b2, b3, b4, b5, b6, b7, b8, b9, b10,
          IHg, IHi, IHs, IHn, List.map_map, hfun, List.map_append, List.append_assoc]

theorem generateList_headingDepths : ∀ (opts : GenOpts) (d : Nat) (cs : List Comment),
    commentsHeadingFree cs = true →
    nodesHeadingDepths (generateList opts d cs) = (levelsList cs).map (fun k => d + k)
  | opts, d, [], _ => by simp [generateList, levelsList, nodesHeadingDepths]
  | opts, d, c :: cs, h => by
      have hc : commentHeadingFree c = true ∧ commentsHeadingFree cs = true := by
        simpa [commentsHeadingFree, Bool.and_eq_true] using h
      have ih1 := generate_headingDepths opts d c hc.1
      have ih2 := generateList_headingDepths opts d cs hc.2
      simp [generateList, levelsList, nodesHeadingDepths_append, List.map_append, ih1, ih2]
end

/-- C2: when the extraction-supplied rich text carries no heading nodes
(the spec supplies descriptions as inline prose), every heading the
generator emits for an entry sits at depth exactly `2 + nesting level`:
the initial call is at depth 2 and every member-group recursion adds one.
`levels` lists the nesting level of each visited entry in emission
order. -/
theorem heading_depth_is_two_plus_nesting (opts : GenOpts) (c : Comment)
    (h : commentHeadingFree c = true) :
    nodesHeadingDepths (generate opts 2 c) = (levels c).map (fun k => 2 + k) :=
  generate_headingDepths opts 2 c h

theorem heading_depth_is_two_plus_nesting_witness :
    nodesHeadingDepths (generate sampleOpts 2 c2root) = [2, 3, 4] :=
  heading_depth_is_two_plus_nesting sampleOpts c2root rfl

/-! ### The returns/source sections are never emitted -/

theorem nodesHaveRS_append (l1 l2 : List Node) :
    nodesHaveRS (l1 ++ l2) = (nodesHaveRS l1 || nodesHaveRS l2) := by
  induction l1 with
  | nil => simp [nodesHaveRS]
  | cons n ns ih => simp [nodesHaveRS, ih, Bool.or_assoc]

theorem nodesHaveRS_children (n : Node) (h : nodeHasRS n = false) :
    nodesHaveRS n.children = false := by
  cases n <;> simp_all [nodeHasRS, Node.children, nodesHaveRS]

theorem nodesHaveRS_ite (p : Prop) [Decidable p] (l1 l2 : List Node)
    (h1 : nodesHaveRS l1 = false) (h2 : nodesHaveRS l2 = false) :
    nodesHaveRS (if p then l1 else l2) = false := by
  split <;> assumption

theorem nodesHaveRS_eq_false_of_mem (l : List Node)
    (h : nodesHaveRS l = false) : ∀ n ∈ l, nodeHasRS n = false := by
  induction l with
  | nil => simp
  | cons x xs ih =>
      simp only [nodesHaveRS, Bool.or_eq_false_iff] at h
      intro n hn
      rcases List.mem_cons.mp hn with rfl | hn
      · exact h.1
      · exact ih h.2 n hn

theorem nodesHaveRS_map {α : Type} (f : α → Node) (l : List α)
    (h : ∀ x ∈ l, nodeHasRS (f x) = false) :
    nodesHaveRS (l.map f) = false := by
  induction l with
  | nil => simp [nodesHaveRS]
  | cons x xs ih =>
      simp [nodesHaveRS, h x (by simp), ih (fun y hy => h y (by simp [hy]))]

theorem nodesHaveRS_flatMap {α : Type} (f : α → List Node) (l : List α)
    (h : ∀ x ∈ l, nodesHaveRS (f x) = false) :
    nodesHaveRS (l.flatMap f) = false := by
  induction l with
  | nil => simp [nodesHaveRS]
  | cons x xs ih =>
      simp [List.flatMap_cons, nodesHaveRS_append, h x (by simp),
        ih (fun y hy => h y (by simp [hy]))]

mutual
theorem formatType_noRS : ∀ t : TypeExpr, nodesHaveRS (formatType t) = false
  | .nameExpression n => by
      simp [formatType, nodesHaveRS, nodeHasRS]
  | .functionType ps none => by
      have h := formatTagList_noRS ps
      simp [formatType, nodesHaveRS, nodeHasRS, nodesHaveRS_append, h]
  | .functionType ps (some t) => by
      have h := formatTagList_noRS ps
      have h2 := formatType_noRS t
      simp [formatType, nodesHaveRS, nodeHasRS, nodesHaveRS_append, h, h2]
  | .unionType es => by
      have h := formatTypeList_noRS es
      simp [formatType, nodesHaveRS, nodeHasRS, nodesHaveRS_append, h]

theorem formatTypeList_noRS : ∀ ts : List TypeExpr,
    nodesHaveRS (formatTypeList ts) = false
  | [] => by simp [formatTypeList, nodesHaveRS]
  | [t] => by
      have h := formatType_noRS t
      simp [formatTypeList, h]
  | t :: t2 :: ts => by
      have h := formatType_noRS t
      have h2 := formatTypeList_noRS (t2 :: ts)
      simp [formatTypeList, nodesHaveRS_append, nodesHaveRS, nodeHasRS, h, h2]

theorem formatTagList_noRS : ∀ ts : List CommentTag,
    nodesHaveRS (formatTagList ts) = false
  | [] => by simp [formatTagList, nodesHaveRS]
  | [tag] => by
      have h := formatTagSig_noRS tag
      simp [formatTagList, h]
  | tag :: t2 :: ts => by
      have h := formatTagSig_noRS tag
      have h2 := formatTagList_noRS (t2 :: ts)
      simp [formatTagList, nodesHaveRS_append, nodesHaveRS, nodeHasRS, h, h2]

theorem formatTagSig_noRS : ∀ tag : CommentTag,
    nodesHaveRS (formatTagSig tag) = false
  | .mk n none de df p => by
      simp [formatTagSig, nodesHaveRS, nodeHasRS]
  | .mk n (some t) de df p => by
      have h := formatType_noRS t
      simp [formatTagSig, nodesHaveRS, nodeHasRS, nodesHaveRS_append, h]
end

theorem formatTypeOpt_noRS : ∀ t : Option TypeExpr,
    nodesHaveRS (formatTypeOpt t) = false
  | none => by simp [formatTypeOpt, nodesHaveRS]
  | some t => by simpa [formatTypeOpt] using formatType_noRS t

theorem descriptionChildren_noRS (descr : Option Node)
    (h : optNodeRSFree descr = true) :
    nodesHaveRS (descriptionChildren descr) = false := by
  rcases descr with _ | d
  · simp [descriptionChildren, nodesHaveRS]
  · have hd : nodeHasRS d = false := by
      simpa [optNodeRSFree] using h
    simpa [descriptionChildren] using nodesHaveRS_children d hd

theorem descriptionNodes_noRS (descr : Option Node)
    (h : optNodeRSFree descr = true) :
    nodesHaveRS (descriptionNodes descr) = false := by
  rcases descr with _ | d
  · simp [descriptionNodes, nodesHaveRS]
  · have hd : nodeHasRS d = false := by
      simpa [optNodeRSFree] using h
    simp [descriptionNodes, nodesHaveRS, hd]

theorem headingNodes_noRS (c : CommentData) :
    nodesHaveRS (headingNodes c) = false := by
  rcases hc : c.context with _ | ctx
  · simp [headingNodes, hc, nodesHaveRS, nodeHasRS]
  · rcases hg : ctx.github with _ | gh <;>
      simp [headingNodes, hc, hg, nodesHaveRS, nodeHasRS]

theorem augmentsLink_noRS (c : CommentData) :
    nodesHaveRS (augmentsLink c) = false := by
  unfold augmentsLink
  split <;> simp [nodesHaveRS, nodeHasRS, isReturnsOrSourcePara]

theorem nodesHaveRS_single_list (b : Bool) (l : List Node) :
    nodesHaveRS [Node.list b l] = nodesHaveRS l := by
  simp [nodesHaveRS, nodeHasRS]

theorem seeLink_noRS (c : CommentData)
    (h : nodesHaveRS c.sees = false) :
    nodesHaveRS (seeLink c) = false := by
  unfold seeLink
  split
  · rw [nodesHaveRS_single_list]
    refine nodesHaveRS_map _ c.sees (fun see hsee => ?_)
    have hfree := nodesHaveRS_eq_false_of_mem c.sees h see hsee
    have hch := nodesHaveRS_children see hfree
    simp [nodeHasRS, nodesHaveRS, nodesHaveRS_append, hch]
  · simp [nodesHaveRS]

theorem typeSection_noRS (c : CommentData) :
    nodesHaveRS (typeSection c) = false := by
  unfold typeSection
  split
  · simp [nodesHaveRS, nodeHasRS, nodesHaveRS_append, isReturnsOrSourcePara,
      formatType_noRS]
  · split
    · simp [nodesHaveRS, nodeHasRS, nodesHaveRS_append, isReturnsOrSourcePara,
        formatType_noRS]
    · simp [nodesHaveRS]

mutual
theorem paramList_noRS : ∀ ps, tagsRSFree ps = true →
    nodesHaveRS (paramList ps) = false
  | ps, h => by
      unfold paramList
      split
      · simp [nodesHaveRS]
      · have hi := paramItems_noRS ps h
        simp [nodesHaveRS, nodeHasRS, hi]

theorem paramItems_noRS : ∀ ps, tagsRSFree ps = true →
    nodesHaveRS (paramItems ps) = false
  | [], _ => by simp [paramItems, nodesHaveRS]
  | p :: ps, h => by
      have hp : tagRSFree p = true ∧ tagsRSFree ps = true := by
        simpa [tagsRSFree, Bool.and_eq_true] using h
      have h1 := paramItem_noRS p hp.1
      have h2 := paramItems_noRS ps hp.2
      simp [paramItems, nodesHaveRS, h1, h2]

theorem paramItem_noRS : ∀ p, tagRSFree p = true →
    nodeHasRS (paramItem p) = false
  | .mk nm ty descr dflt none, h => by
      have hh : optNodeRSFree descr = true := by
        simpa [tagRSFree] using h
      have hdesc := descriptionChildren_noRS descr hh
      rcases ty with _ | t <;>
        rcases hdf : strTruthy dflt with _ | _ <;>
          simp [paramItem, hdf, nodeHasRS, nodesHaveRS,
            nodesHaveRS_append, isReturnsOrSourcePara, hdesc, formatType_noRS]
  | .mk nm ty descr dflt (some ps), h => by
      have hh : optNodeRSFree descr = true ∧ tagsRSFree ps = true := by
        simpa [tagRSFree, Bool.and_eq_true] using h
      have hdesc := descriptionChildren_noRS descr hh.1
      have hprops := paramList_noRS ps hh.2
      rcases ty with _ | t <;>
        rcases hdf : strTruthy dflt with _ | _ <;>
          simp [paramItem, hdf, nodeHasRS, nodesHaveRS,
            nodesHaveRS_append, isReturnsOrSourcePara, hdesc, hprops, formatType_noRS]
end

mutual
theorem propertyList_noRS : ∀ ps, tagsRSFree ps = true →
    nodeHasRS (propertyList ps) = false
  | ps, h => by
      have hi := propertyItems_noRS ps h
      simp [propertyList, nodeHasRS, hi]

theorem propertyItems_noRS : ∀ ps, tagsRSFree ps = true →
    nodesHaveRS (propertyItems ps) = false
  | [], _ => by simp [propertyItems, nodesHaveRS]
  | p :: ps, h => by
      have hp : tagRSFree p = true ∧ tagsRSFree ps = true := by
        simpa [tagsRSFree, Bool.and_eq_true] using h
      have h1 := propertyItem_noRS p hp.1
      have h2 := propertyItems_noRS ps hp.2
      simp [propertyItems, nodesHaveRS, h1, h2]

theorem propertyItem_noRS : ∀ p, tagRSFree p = true →
    nodeHasRS (propertyItem p) = false
  | .mk nm ty descr dflt none, h => by
      have hh : optNodeRSFree descr = true := by
        simpa [tagRSFree] using h
      have hdesc := descriptionChildren_noRS descr hh
      simp [propertyItem, nodeHasRS, nodesHaveRS, nodesHaveRS_append,
        isReturnsOrSourcePara, formatTypeOpt_noRS, hdesc]
  | .mk nm ty descr dflt (some ps), h => by
      have hh : optNodeRSFree descr = true ∧ tagsRSFree ps = true := by
        simpa [tagRSFree, Bool.and_eq_true] using h
      have hdesc := descriptionChildren_noRS descr hh.1
      have hprops := propertyList_noRS ps hh.2
      simp [propertyItem, nodeHasRS, nodesHaveRS, nodesHaveRS_append,
        isReturnsOrSourcePara, formatTypeOpt_noRS, hdesc, hprops]
end

theorem tagsRSFree_mem (l : List CommentTag) (h : tagsRSFree l = true) :
    ∀ t ∈ l, tagRSFree t = true := by
  induction l with
  | nil => simp
  | cons x xs ih =>
      simp only [tagsRSFree, Bool.and_eq_true] at h
      intro t ht
      rcases List.mem_cons.mp ht with rfl | ht
      · exact h.1
      · exact ih h.2 t ht

theorem paramSection_noRS (c : CommentData)
    (h : tagsRSFree c.params = true) :
    nodesHaveRS (paramSection c) = false := by
  unfold paramSection
  split
  · exact paramList_noRS c.params h
  · simp [nodesHaveRS]

theorem propertySection_noRS (c : CommentData)
    (h : tagsRSFree c.properties = true) :
    nodesHaveRS (propertySection c) = false := by
  unfold propertySection
  split
  · simp [nodesHaveRS, propertyList_noRS c.properties h]
  · simp [nodesHaveRS]

theorem throwsSection_noRS (c : CommentData)
    (h : tagsRSFree c.throws = true) :
    nodesHaveRS (throwsSection c) = false := by
  unfold throwsSection
  split
  · rw [nodesHaveRS_single_list]
    refine nodesHaveRS_map _ c.throws (fun t ht => ?_)
    have htf := tagsRSFree_mem c.throws h t ht
    obtain ⟨nm, ty, descr, df, pr⟩ := t
    have hh : optNodeRSFree descr = true := by
      rcases pr with _ | ps
      · simpa [tagRSFree] using htf
      · have hconj : optNodeRSFree descr = true ∧ tagsRSFree ps = true := by
          simpa [tagRSFree, Bool.and_eq_true] using htf
        exact hconj.1
    have hdesc := descriptionChildren_noRS descr hh
    simp [nodeHasRS, nodesHaveRS, nodesHaveRS_append, isReturnsOrSourcePara,
      formatTypeOpt_noRS, CommentTag.description, CommentTag.type, hdesc]
  · simp [nodesHaveRS]

theorem examplesSection_noRS (opts : GenOpts) (c : CommentData) :
    nodesHaveRS (examplesSection opts c) = false := by
  unfold examplesSection
  split
  · simp only [nodesHaveRS, nodeHasRS, Bool.false_or]
    refine nodesHaveRS_flatMap _ c.examples (fun ex _ => ?_)
    rw [nodesHaveRS_append]
    have h1 : nodesHaveRS (if strTruthy ex.caption = true then
        [Node.paragraph [Node.emphasisValue (ex.caption.getD "")]] else []) = false := by
      split <;> simp [nodesHaveRS, nodeHasRS, isReturnsOrSourcePara]
    simp [h1, nodesHaveRS, nodeHasRS]
  · simp [nodesHaveRS]

theorem metaItem_noRS (label : String) (content : Node)
    (h : nodeHasRS content = false) :
    nodeHasRS (metaItem label content) = false := by
  simp [metaItem, nodeHasRS, nodesHaveRS, nodesHaveRS_append,
    isReturnsOrSourcePara, h]

theorem metaItems_noRS (c : CommentData)
    (h1 : optNodeRSFree c.copyright = true)
    (h2 : optNodeRSFree c.deprecated = true) :
    nodesHaveRS (metaItems c) = false := by
  have hcpy : nodesHaveRS
      (match c.copyright with | some n => [metaItem "copyright" n] | none => []) = false := by
    rcases hc : c.copyright with _ | n
    · simp [nodesHaveRS]
    · have hn : nodeHasRS n = false := by
        simpa [optNodeRSFree, hc] using h1
      simp [nodesHaveRS, metaItem_noRS _ _ hn]
  have hdep : nodesHaveRS
      (match c.deprecated with | some n => [metaItem "deprecated" n] | none => []) = false := by
    rcases hc : c.deprecated with _ | n
    · simp [nodesHaveRS]
    · have hn : nodeHasRS n = false := by
        simpa [optNodeRSFree, hc] using h2
      simp [nodesHaveRS, metaItem_noRS _ _ hn]
  unfold metaItems
  repeat rw [nodesHaveRS_append]
  rw [hcpy, hdep]
  have htext : ∀ (lb v : String),
      nodesHaveRS [metaItem lb (Node.text v)] = false := by
    intro lb v
    simp [nodesHaveRS, metaItem_noRS _ _ (by
      simp [nodeHasRS] : nodeHasRS (Node.text v) = false)]
  rw [nodesHaveRS_ite _ _ _ (htext _ _) (by simp [nodesHaveRS]),
    nodesHaveRS_ite _ _ _ (htext _ _) (by simp [nodesHaveRS]),
    nodesHaveRS_ite _ _ _ (htext _ _) (by simp [nodesHaveRS]),
    nodesHaveRS_ite _ _ _ (htext _ _) (by simp [nodesHaveRS])]
  simp

theorem metaSection_noRS (c : CommentData)
    (h1 : optNodeRSFree c.copyright = true)
    (h2 : optNodeRSFree c.deprecated = true) :
    nodesHaveRS (metaSection c) = false := by
  unfold metaSection
  split
  · simp [nodesHaveRS]
  · simp [nodesHaveRS, nodeHasRS, metaItems_noRS c h1 h2]

mutual
theorem generate_noRS : ∀ (opts : GenOpts) (d : Nat) (c : Comment),
    commentRSFree c = true →
    nodesHaveRS (generate opts d c) = false
  | opts, d, .mk dt ms mi mg minr, h => by
      have h' : ((((dataRSFree dt && commentsRSFree ms) &&
          commentsRSFree mi) && commentsRSFree mg) &&
          commentsRSFree minr) = true := by
        simpa [commentRSFree] using h
      simp only [Bool.and_eq_true] at h'
      obtain ⟨⟨⟨⟨h0, hms⟩, hmi⟩, hmg⟩, hminr⟩ := h'
      have h0' : ((((((optNodeRSFree dt.description &&
          !nodesHaveRS dt.sees) && tagsRSFree dt.params) &&
          tagsRSFree dt.properties) && tagsRSFree dt.throws) &&
          optNodeRSFree dt.copyright) && optNodeRSFree dt.deprecated) = true := by
        simpa [dataRSFree] using h0
      simp only [Bool.and_eq_true] at h0'
      obtain ⟨⟨⟨⟨⟨⟨hdesc, hsees⟩, hpar⟩, hprop⟩, hthr⟩, hcpy⟩, hdep⟩ := h0'
      have hseesF : nodesHaveRS dt.sees = false := by
        simpa using hsees
      by_cases hk : (dt.kind == some "note") = true
      · have IH := generateList_noRS opts (d + 1) ms hms
        have hd1 := descriptionNodes_noRS dt.description hdesc
        simp [generate, hk, nodesHaveRS, nodeHasRS, nodesHaveRS_append, hd1, IH]
      · have IHg := generateList_noRS opts (d + 1) mg hmg
        have IHi := generateList_noRS opts (d + 1) mi hmi
        have IHs := generateList_noRS opts (d + 1) ms hms
        have IHn := generateList_noRS opts (d + 1) minr hminr
        have b1 := headingNodes_noRS dt
        have b2 := augmentsLink_noRS dt
        have b3 := seeLink_noRS dt hseesF
        have b4 := descriptionChildren_noRS dt.description hdesc
        have b5 := typeSection_noRS dt
        have b6 := paramSection_noRS dt hpar
        have b7 := propertySection_noRS dt hprop
        have b8 := throwsSection_noRS dt hthr
        have b9 := examplesSection_noRS opts dt
        have b10 := metaSection_noRS dt hcpy hdep
        simp [generate, hk, nodesHaveRS, nodeHasRS, nodesHaveRS_append,
          b1, b2, b3, b4, b5, b6, b7, b8, b9, b10, IHg, IHi, IHs, IHn]

theorem generateList_noRS : ∀ (opts : GenOpts) (d : Nat) (cs : List Comment),
    commentsRSFree cs = true →
    nodesHaveRS (generateList opts d cs) = false
  | opts, d, [], _ => by simp [generateList, nodesHaveRS]
  | opts, d, c :: cs, h => by
      have hc : commentRSFree c = true ∧ commentsRSFree cs = true := by
        simpa [commentsRSFree, Bool.and_eq_true] using h
      have ih1 := generate_noRS opts d c hc.1
      have ih2 := generateList_noRS opts d cs hc.2
      simp [generateList, nodesHaveRS_append, ih1, ih2]
end

/-- C10: the generator never emits the return-values section or the
standalone source-location section: whenever the extraction-supplied rich
text is free of the distinctive `Returns:`/`Source: ` paragraph shapes, no
such paragraph occurs anywhere in the generated tree — even for entries
with a non-empty `returns` sequence or github origin info — although
`returnsSection` and `githubLink` would produce exactly such paragraphs
(they are defined but commented out of the emission chain). -/
theorem generate_never_emits_returns_or_source :
    (∀ (opts : GenOpts) (d : Nat) (c : Comment), commentRSFree c = true →
      nodesHaveRS (generate opts d c) = false) ∧
    (∀ (c : CommentData) (r : CommentTag) (rest : List CommentTag),
      c.returns = r :: rest → nodesHaveRS (returnsSection c) = true) ∧
    (∀ (c : CommentData) (ctx : Context) (gh : GithubInfo),
      c.context = some ctx → ctx.github = some gh →
      nodesHaveRS (githubLink c) = true) := by
  refine ⟨generate_noRS, ?_, ?_⟩
  · intro c r rest hr
    simp [returnsSection, hr, nodesHaveRS, nodeHasRS, isReturnsOrSourcePara]
  · intro c ctx gh hc hg
    simp [githubLink, hc, hg, nodesHaveRS, nodeHasRS, isReturnsOrSourcePara]

theorem generate_never_emits_returns_or_source_witness :
    nodesHaveRS (generate sampleOpts 2
      (.mk { name := some "f", kind := some "function", returns := [c6ret],
             context := some ⟨some ⟨"u", "p"⟩, 3⟩ } [] [] [] [])) = false ∧
    nodesHaveRS (returnsSection { returns := [c6ret] }) = true ∧
    nodesHaveRS (githubLink { context := some ⟨some ⟨"u", "p"⟩, 3⟩ }) = true :=
  ⟨generate_never_emits_returns_or_source.1 sampleOpts 2
      (.mk { name := some "f", kind := some "function", returns := [c6ret],
             context := some ⟨some ⟨"u", "p"⟩, 3⟩ } [] [] [] []) rfl,
   generate_never_emits_returns_or_source.2.1 { returns := [c6ret] } c6ret [] rfl,
   generate_never_emits_returns_or_source.2.2 { context := some ⟨some ⟨"u", "p"⟩, 3⟩ }
      ⟨some ⟨"u", "p"⟩, 3⟩ ⟨"u", "p"⟩ rfl rfl⟩

/-! ### Well-formed forests generate without error -/

mutual
theorem generateE_ok : ∀ (opts : GenOpts) (d : Nat) (c : RComment),
    commentWF c = true →
    generateE opts d c = .ok (generate opts d (stripComment c))
  | opts, d, .mk dt ms mi mg minr, h => by
      have h' : ((((((((dataWF dt && ms.isSome) && mi.isSome) && mg.isSome) &&
          minr.isSome) && optWF ms) && optWF mi) && optWF mg) && optWF minr) = true := by
        simpa [commentWF] using h
      simp only [Bool.and_eq_true] at h'
      obtain ⟨⟨⟨⟨⟨⟨⟨⟨hdw, hms⟩, hmi⟩, hmg⟩, hminr⟩, wms⟩, wmi⟩, wmg⟩, wminr⟩ := h'
      obtain ⟨ls, rfl⟩ := Option.isSome_iff_exists.mp hms
      obtain ⟨li, rfl⟩ := Option.isSome_iff_exists.mp hmi
      obtain ⟨lg, rfl⟩ := Option.isSome_iff_exists.mp hmg
      obtain ⟨ln, rfl⟩ := Option.isSome_iff_exists.mp hminr
      have wls : listWF ls = true := by simpa [optWF] using wms
      have wli : listWF li = true := by simpa [optWF] using wmi
      have wlg : listWF lg = true := by simpa [optWF] using wmg
      have wln : listWF ln = true := by simpa [optWF] using wminr
      have hdw' : ((((((dt.params.isSome && dt.properties.isSome) &&
          dt.returns.isSome) && dt.throws.isSome) && dt.sees.isSome) &&
          dt.examples.isSome) && dt.augments.isSome) = true := by
        simpa [dataWF] using hdw
      simp only [Bool.and_eq_true] at hdw'
      obtain ⟨⟨⟨⟨⟨⟨hpar, hprop⟩, hret⟩, hthr⟩, hsee⟩, hex⟩, haug⟩ := hdw'
      obtain ⟨aug, heq1⟩ := Option.isSome_iff_exists.mp haug
      obtain ⟨see, heq2⟩ := Option.isSome_iff_exists.mp hsee
      obtain ⟨par, heq3⟩ := Option.isSome_iff_exists.mp hpar
      obtain ⟨prop, heq4⟩ := Option.isSome_iff_exists.mp hprop
      obtain ⟨thr, heq5⟩ := Option.isSome_iff_exists.mp hthr
      obtain ⟨exs, heq6⟩ := Option.isSome_iff_exists.mp hex
      have IHs := generateEList_ok opts (d + 1) ls wls
      have IHi := generateEList_ok opts (d + 1) li wli
      have IHg := generateEList_ok opts (d + 1) lg wlg
      have IHn := generateEList_ok opts (d + 1) ln wln
      by_cases hk : (dt.kind == some "note") = true
      · simp [generateE, hk, IHs, Except.map, stripComment, stripOpt, generate,
          stripData, CommentData.nameOrEmpty]
      · simp [generateE, hk, heq1, heq2, heq3, heq4, heq5, heq6,
          IHs, IHi, IHg, IHn, Bind.bind, Except.bind, pure, Except.pure,
          stripComment, stripOpt, generate, stripData]

theorem generateEList_ok : ∀ (opts : GenOpts) (d : Nat) (cs : List RComment),
    listWF cs = true →
    generateEList opts d cs = .ok (generateList opts d (stripList cs))
  | opts, d, [], _ => by
      simp [generateEList, stripList, generateList]
  | opts, d, c :: cs, h => by
      have hc : commentWF c = true ∧ listWF cs = true := by
        simpa [listWF, Bool.and_eq_true] using h
      have ih1 := generateE_ok opts d c hc.1
      have ih2 := generateEList_ok opts d cs hc.2
      simp [generateEList, stripList, generateList, ih1, ih2,
        Bind.bind, Except.bind, pure, Except.pure]
end

/-- C9: generating a well-formed comment forest (all four member groups
and all tag/node sequences present on every entry) never raises: it
returns exactly the fully built tree of the strict generator.  An error
propagates only on a precondition violation (a missing sequence or member
group), and then no tree at all is returned (the `Except` carries only the
error). -/
theorem wellformed_generation_succeeds (opts : GenOpts) (d : Nat) (c : RComment) :
    (commentWF c = true →
      generateE opts d c = .ok (generate opts d (stripComment c))) ∧
    (∀ e, generateE opts d c = .error e → commentWF c = false) := by
  refine ⟨generateE_ok opts d c, fun e he => ?_⟩
  by_cases hw : commentWF c = true
  · rw [generateE_ok opts d c hw] at he
    cases he
  · simpa using hw

/-- A well-formed raw entry (everything present) and a malformed one
(missing `members.global`), run through the raw generator. -/
def c9good : RComment :=
  .mk { params := some [], properties := some [], returns := some [],
        throws := some [], sees := some [], examples := some [],
        augments := some [], name := some "ok", kind := some "function" }
     (some []) (some []) (some []) (some [])

def c9bad : RComment :=
  .mk { params := some [], properties := some [], returns := some [],
        throws := some [], sees := some [], examples := some [],
        augments := some [], name := some "bad" }
     (some []) (some []) none (some [])

theorem wellformed_generation_succeeds_witness :
    generateE sampleOpts 2 c9good = .ok (generate sampleOpts 2 (stripComment c9good)) ∧
    commentWF c9bad = false :=
  ⟨(wellformed_generation_succeeds sampleOpts 2 c9good).1 rfl,
   (wellformed_generation_succeeds sampleOpts 2 c9bad).2
     "cannot read length of members.global" rfl⟩

end MarkdownAst
